import Mathlib

/-!
Shallow embedding of the ProFlex Draw core: graph data model, capacity model,
demand aggregator, validator, node deletion, pipe-mode tap protocol, and the
AI-audit fallback. Definitions are translated from the TypeScript sources
(src/App.tsx, src/index.tsx, src/components/Canvas.tsx = part_001,
the alternative App = part_002, src/services/geminiService.ts and its
alternative = part_000). JS numbers are idealised: lengths, pressure drops
and the empirical pipe constants are exact rationals, `Math.pow` is the real
power function `Real.rpow`, `Math.floor` is `Int.floor`.
-/

/-- Node kinds, from `enum NodeType` (src/index.tsx). -/
inductive NodeType where
  | METER
  | JUNCTION
  | MANIFOLD
  | APPLIANCE
deriving DecidableEq, Repr

/-- A piping component, from `interface AppNode` (src/index.tsx): opaque id,
kind, canvas position, display name and appliance demand in BTU. -/
structure AppNode where
  id : String
  type : NodeType
  x : ℚ
  y : ℚ
  name : String
  btu : ℤ
deriving DecidableEq, Repr

/-- A pipe segment, from `interface AppEdge` (src/index.tsx): opaque id,
upstream node id `from`, downstream node id `to`, nominal size (the string
value of the `PipeSize` enum) and length in feet. -/
structure AppEdge where
  id : String
  «from» : String
  «to» : String
  size : String
  length : ℚ
deriving DecidableEq, Repr

/-- Values of `enum PipeSize` (src/index.tsx); the TS enum is string-valued,
so a pipe size at runtime is just a string. -/
def PipeSize.THREE_EIGHTHS : String := "3/8\""

/-- Value `PipeSize.HALF`. -/
def PipeSize.HALF : String := "1/2\""

/-- Value `PipeSize.THREE_QUARTERS`. -/
def PipeSize.THREE_QUARTERS : String := "3/4\""

/-- Value `PipeSize.ONE`. -/
def PipeSize.ONE : String := "1\""

/-- Value `PipeSize.ONE_AND_QUARTER`. -/
def PipeSize.ONE_AND_QUARTER : String := "1-1/4\""

/-- Per-size entry of the `PIPE_SPECS` table (src/index.tsx lines 48-54):
the two empirical constants of the sizing formula and the fixed capacity
rating used by the index.tsx validator. -/
structure PipeSpec where
  size : String
  coeff : ℚ
  exp : ℚ
  capacity : ℤ
deriving DecidableEq, Repr

/-- The `PIPE_SPECS` table (src/index.tsx lines 48-54). A JS object lookup
`PIPE_SPECS[size]` yields `undefined` for a key outside the table, modelled
as `none`. -/
def PIPE_SPECS (size : String) : Option PipeSpec :=
  if size = PipeSize.THREE_EIGHTHS then
    some ⟨PipeSize.THREE_EIGHTHS, 0.00002158927, 2.02558185, 46000⟩
  else if size = PipeSize.HALF then
    some ⟨PipeSize.HALF, 0.00000410606, 2.1590935, 77000⟩
  else if size = PipeSize.THREE_QUARTERS then
    some ⟨PipeSize.THREE_QUARTERS, 0.00000123682, 2.00156167, 200000⟩
  else if size = PipeSize.ONE then
    some ⟨PipeSize.ONE, 0.0000010746, 1.77654817, 423000⟩
  else if size = PipeSize.ONE_AND_QUARTER then
    some ⟨PipeSize.ONE_AND_QUARTER, 1.1678553403503e-7, 1.992081557687, 662000⟩
  else none

/-- Capacity model of the alternative App (part_002 lines 81-86):
`calculateCapacity(size, length)` with the project-level `pressureDrop`
state as a parameter. Returns `0` when the size has no `PIPE_SPECS` entry
or `length <= 0`; otherwise
`Math.floor(Math.pow((pressureDrop / length) / coeff, 1 / exp)) * 1000`. -/
noncomputable def calculateCapacity (pressureDrop : ℚ) (size : String) (length : ℚ) : ℤ :=
  match PIPE_SPECS size with
  | none => 0
  | some spec =>
    if length ≤ 0 then 0
    else
      ⌊(((pressureDrop / length) / spec.coeff : ℚ) : ℝ) ^ ((1 : ℝ) / (spec.exp : ℝ))⌋ * 1000

/-- Capacity model of src/App.tsx lines 51-57: identical formula but with the
pressure drop hard-coded as the local constant `const pressureDrop = 0.5`
inside the function body. -/
noncomputable def calculateCapacityApp (size : String) (length : ℚ) : ℤ :=
  match PIPE_SPECS size with
  | none => 0
  | some spec =>
    if length ≤ 0 then 0
    else
      ⌊(((0.5 / length) / spec.coeff : ℚ) : ℝ) ^ ((1 : ℝ) / (spec.exp : ℝ))⌋ * 1000

/-- Modelled from the spec: the closed-form sizing rule of spec section 4.1,
`flow = floor( ((designPressureDrop / length) / coeff) ^ (1/exp) ) * 1000`,
stated for an enumerated size (an entry of `PIPE_SPECS`); outside the table
the spec leaves the value unconstrained and we pick 0. Used only to compare
the implementation against the spec's formula. -/
noncomputable def specCapacity (designPressureDrop : ℚ) (size : String) (length : ℚ) : ℤ :=
  match PIPE_SPECS size with
  | none => 0
  | some spec =>
    ⌊(((designPressureDrop / length) / spec.coeff : ℚ) : ℝ) ^ ((1 : ℝ) / (spec.exp : ℝ))⌋ * 1000

/-- Option-valued running sum of recursively computed flows, mirroring the
accumulation loop `edges.filter(e => e.from === target.id).forEach(out =>
{ flow += getFlow(out.id); })` of `getFlow` (src/App.tsx lines 61-70): `f`
is the recursive call at the remaining fuel; `none` means the recursion ran
out of fuel somewhere below (the JS recursion would not have returned). -/
def sumFlowsWith (f : String → Option ℤ) : List AppEdge → Option ℤ
  | [] => some 0
  | c :: cs =>
    match f c.id with
    | none => none
    | some v =>
      match sumFlowsWith f cs with
      | none => none
      | some s => some (v + s)

/-- Demand aggregator `getFlow` of src/App.tsx lines 61-70 (identical in
part_002 lines 90-99), with an explicit fuel parameter standing for the
unbounded JS recursion: `none` means the JS call would still be recursing
at that depth. Looks up the edge by id (`edges.find`), returns 0 for an
unknown edge id or a dangling `to`, adds the target's `btu` only when the
target is an APPLIANCE, and adds the flows of all edges leaving the
target. -/
def getFlowF (nodes : List AppNode) (edges : List AppEdge) : ℕ → String → Option ℤ
  | 0 => fun _ => none
  | fuel + 1 => fun edgeId =>
    match edges.find? (fun e => e.id == edgeId) with
    | none => some 0
    | some e =>
      match nodes.find? (fun n => n.id == e.«to») with
      | none => some 0
      | some targetNode =>
        let base : ℤ := if targetNode.type = NodeType.APPLIANCE then targetNode.btu else 0
        match sumFlowsWith (getFlowF nodes edges fuel)
            (edges.filter (fun e2 => e2.«from» == targetNode.id)) with
        | none => none
        | some s => some (base + s)

/-- Demand aggregator `getFlow` of the self-contained src/index.tsx lines
267-275: same recursion, but `let flow = target.btu || 0` adds the target
node's `btu` whatever its type (no APPLIANCE check). -/
def getFlowIdxF (nodes : List AppNode) (edges : List AppEdge) : ℕ → String → Option ℤ
  | 0 => fun _ => none
  | fuel + 1 => fun edgeId =>
    match edges.find? (fun e => e.id == edgeId) with
    | none => some 0
    | some e =>
      match nodes.find? (fun n => n.id == e.«to») with
      | none => some 0
      | some target =>
        match sumFlowsWith (getFlowIdxF nodes edges fuel)
            (edges.filter (fun e2 => e2.«from» == target.id)) with
        | none => none
        | some s => some (target.btu + s)

/-- Fuel that always suffices on an acyclic graph with distinct edge ids:
one more than the number of edges (the recursion follows a path of distinct
edges, see the termination theorem). -/
def maxFuel (edges : List AppEdge) : ℕ := edges.length + 1

/-- The JS recursion `getFlow(edgeId)` never returns: no fuel bound makes
the fueled embedding produce a value. -/
def getFlowDiverges (nodes : List AppNode) (edges : List AppEdge) (edgeId : String) : Prop :=
  ∀ fuel, getFlowF nodes edges fuel edgeId = none

/-- One step of the `from → to` edge relation on node ids (spec section 3:
reachability by following `from → to` edges). -/
def stepR (edges : List AppEdge) (a b : String) : Prop :=
  ∃ e ∈ edges, e.«from» = a ∧ e.«to» = b

/-- Acyclicity of the edge set: no node id is reachable from itself by one
or more `from → to` steps. -/
def Acyclic (edges : List AppEdge) : Prop :=
  ∀ n, ¬ Relation.TransGen (stepR edges) n n

/-- Verdict record produced by the validator for one edge,
`{ isValid, flow, capacity }` (src/App.tsx line 74). -/
structure Verdict where
  isValid : Bool
  flow : ℤ
  capacity : ℤ
deriving DecidableEq, Repr

/-- Builds one verdict: `{ isValid: flow <= capacity, flow, capacity }`
(src/App.tsx line 74). -/
def mkVerdict (flow capacity : ℤ) : Verdict :=
  ⟨decide (flow ≤ capacity), flow, capacity⟩

/-- Validator `validateSystem` of src/App.tsx lines 59-77 / part_002 lines
88-107: one verdict per edge, keyed by edge id, comparing the aggregated
flow with `calculateCapacity(edge.size, edge.length)`. The `results`
object is modelled as an association list in edge order (edge ids are
unique by the graph invariant, so lookup agrees with the JS object). The
pressure drop is the part_002 project state (src/App.tsx fixes it to 0.5
inside `calculateCapacity`). A `getFlow` call that would not terminate has
no JS value; the fueled embedding uses `(·).getD 0` there, and theorems
about flows always carry the hypothesis that the fuel sufficed. -/
noncomputable def validateSystem (fuel : ℕ) (nodes : List AppNode) (edges : List AppEdge)
    (pressureDrop : ℚ) : List (String × Verdict) :=
  edges.map (fun e =>
    (e.id, mkVerdict ((getFlowF nodes edges fuel e.id).getD 0)
      (calculateCapacity pressureDrop e.size e.length)))

/-- Verdict record of the index.tsx validator, `{ isValid, flow }`
(src/index.tsx line 279). -/
structure VerdictIdx where
  isValid : Bool
  flow : ℤ
deriving DecidableEq, Repr

/-- Validator `validate` of src/index.tsx lines 265-282: compares the
aggregated flow against the fixed rating `PIPE_SPECS[e.size].capacity`
from the table — not against the length-dependent capacity formula (the
file has no `calculateCapacity` at all). The `none` branch of the lookup
is unreachable for enumerated sizes (on a size outside the table the JS
would throw reading `.capacity` of `undefined`). -/
def validateIdx (fuel : ℕ) (nodes : List AppNode) (edges : List AppEdge) :
    List (String × VerdictIdx) :=
  edges.map (fun e =>
    (e.id,
      ⟨decide (((getFlowIdxF nodes edges fuel e.id).getD 0) ≤
          (match PIPE_SPECS e.size with | some s => s.capacity | none => 0)),
        (getFlowIdxF nodes edges fuel e.id).getD 0⟩))

/-- Node deletion, src/App.tsx line 204 / part_002 line 179:
`setNodes(nodes.filter(n => n.id !== id));
setEdges(edges.filter(e => e.from !== id && e.to !== id));`. -/
def deleteNode (nodes : List AppNode) (edges : List AppEdge) (id : String) :
    List AppNode × List AppEdge :=
  (nodes.filter (fun n => n.id != id),
   edges.filter (fun e => e.«from» != id && e.«to» != id))

/-- Pipe-tool branch of `handleInteractionEnd` (part_001 lines 131-163):
given the current locked source `tapPipingSource`, the tap target id and the
movement flag, returns the new locked source and the emitted add-edge intent
`(from, to)` if any. A target that is not a node leaves everything
unchanged; with no source locked the target becomes the source; a second
tap on the locked source without significant movement unlocks; a tap on a
different node emits the connection and unlocks. -/
def handlePipeEnd (nodes : List AppNode) (tapPipingSource : Option String)
    (targetId : String) (hasMovedSignificant : Bool) :
    Option String × Option (String × String) :=
  if nodes.any (fun n => n.id == targetId) then
    match tapPipingSource with
    | none => (some targetId, none)
    | some src =>
      if src == targetId && !hasMovedSignificant then (none, none)
      else if src != targetId then (none, some (src, targetId))
      else (tapPipingSource, none)
  else (tapPipingSource, none)

/-- Background tap handler (part_001 lines 316-321): clears the selection
only in select mode and always clears the locked pipe source; performs no
graph mutation. Returns (new selected id, new locked source). -/
def handleBackgroundDown (selectedToolIsSelect : Bool) (selectedId : Option String) :
    Option String × Option String :=
  ((if selectedToolIsSelect then none else selectedId), none)

/-- Edge creation `onAddEdge` of src/App.tsx line 202 / part_002 line 372:
appends one edge with a fresh id, the locked source as `from`, the tap
target as `to`, the currently selected default pipe size, and length 10. -/
def addEdge (edges : List AppEdge) (selectedPipeSize : String) (newId f t : String) :
    List AppEdge :=
  edges ++ [⟨newId, f, t, selectedPipeSize, 10⟩]

/-- Fallback string returned by the `catch` branch of `auditSystem` in
src/services/geminiService.ts lines 38-41. -/
def geminiFallback : String :=
  "Failed to perform AI audit. Please check your connections and try again."

/-- Fallback string returned by the `catch` branch of `auditSystem` in the
alternative service part_000 lines 36-39 (identical in src/index.tsx line
89 up to bullet wording). -/
def auditFallback : String :=
  "Safety & Compliance Audit\n- Audit engine connection lost.\n- Verify internet access.\n- Ensure API key is valid.\n- Check project node structure.\n- Retry audit in a moment.\n\nPerformance & Optimization\n- No metrics available currently.\n- System data could not be parsed.\n- Check for floating components.\n- Ensure meter is connected.\n- Refresh design and retry."

/-- Outcome of the external text-generation call: either the response text
or the thrown error (message). -/
abbrev AuditOutcome := Except String String

/-- `auditSystem` of src/services/geminiService.ts, as a function of the
external call's outcome: the `try` returns the response text, the `catch`
returns the fixed one-sentence fallback. The function always returns a
string; no error escapes. -/
def auditSystemSvc (outcome : AuditOutcome) : String :=
  match outcome with
  | .ok text => text
  | .error _ => geminiFallback

/-- `auditSystem` of the alternative service part_000 (and src/index.tsx
lines 65-91): the `catch` returns the fixed two-section report. -/
def auditSystemAlt (outcome : AuditOutcome) : String :=
  match outcome with
  | .ok text => text
  | .error _ => auditFallback

/-- Number of blank-line separators (`"\n\n"` occurrences, scanning left to
right) in a character list. -/
def countBlankSeps : List Char → ℕ
  | a :: b :: rest =>
    if a = Char.ofNat 10 ∧ b = Char.ofNat 10 then countBlankSeps rest + 1
    else countBlankSeps (b :: rest)
  | _ => 0

/-- Number of blank-line-separated sections of a report: one more than the
number of blank-line separators (the fallback reports separate their two
titled sections with exactly one blank line). -/
def sectionCount (report : String) : ℕ :=
  countBlankSeps report.data + 1

/-- If every child flow is available, the running sum is available. -/
lemma sumFlowsWith_exists {f : String → Option ℤ} :
    ∀ {cs : List AppEdge}, (∀ c ∈ cs, ∃ v, f c.id = some v) →
    ∃ s, sumFlowsWith f cs = some s := by
  intro cs
  induction cs with
  | nil => exact fun _ => ⟨0, rfl⟩
  | cons c cs ih =>
    intro h
    obtain ⟨v, hv⟩ := h c (List.mem_cons_self c cs)
    obtain ⟨s, hs⟩ := ih (fun c' hc' => h c' (List.mem_cons_of_mem _ hc'))
    exact ⟨v + s, by simp [sumFlowsWith, hv, hs]⟩

/-- A successful running sum means every child flow was available. -/
lemma sumFlowsWith_child_some {f : String → Option ℤ} :
    ∀ {cs : List AppEdge} {s : ℤ}, sumFlowsWith f cs = some s →
    ∀ c ∈ cs, ∃ v, f c.id = some v := by
  intro cs
  induction cs with
  | nil => simp
  | cons c cs ih =>
    intro s h c' hc'
    cases hv : f c.id with
    | none => simp [sumFlowsWith, hv] at h
    | some v =>
      cases hs : sumFlowsWith f cs with
      | none => simp [sumFlowsWith, hv, hs] at h
      | some s' =>
        rcases List.mem_cons.mp hc' with rfl | hmem
        · exact ⟨v, hv⟩
        · exact ih hs c' hmem

/-- A successful running sum is the sum of the child flows. -/
lemma sumFlowsWith_eq_sum {f : String → Option ℤ} :
    ∀ {cs : List AppEdge} {s : ℤ}, sumFlowsWith f cs = some s →
    s = (cs.map (fun c => (f c.id).getD 0)).sum := by
  intro cs
  induction cs with
  | nil => intro s h; simp [sumFlowsWith] at h; simp [← h]
  | cons c cs ih =>
    intro s h
    cases hv : f c.id with
    | none => simp [sumFlowsWith, hv] at h
    | some v =>
      cases hs : sumFlowsWith f cs with
      | none => simp [sumFlowsWith, hv, hs] at h
      | some s' =>
        simp only [sumFlowsWith, hv, hs] at h
        cases h
        simp [hv, ih hs]

/-- Replacing the child-flow oracle by one that succeeds at least as often
preserves a successful running sum. -/
lemma sumFlowsWith_mono {f g : String → Option ℤ}
    (hfg : ∀ i v, f i = some v → g i = some v) :
    ∀ {cs : List AppEdge} {s : ℤ}, sumFlowsWith f cs = some s →
    sumFlowsWith g cs = some s := by
  intro cs
  induction cs with
  | nil => intro s h; exact h
  | cons c cs ih =>
    intro s h
    cases hv : f c.id with
    | none => simp [sumFlowsWith, hv] at h
    | some v =>
      cases hs : sumFlowsWith f cs with
      | none => simp [sumFlowsWith, hv, hs] at h
      | some s' =>
        simp only [sumFlowsWith, hv, hs] at h
        simp [sumFlowsWith, hfg _ _ hv, ih hs, h]

/-- Fuel monotonicity: a flow value obtained at some fuel persists at any
larger fuel. -/
lemma getFlowF_mono (nodes : List AppNode) (edges : List AppEdge) :
    ∀ {fuel₁ fuel₂ : ℕ}, fuel₁ ≤ fuel₂ →
    ∀ {eid : String} {v : ℤ}, getFlowF nodes edges fuel₁ eid = some v →
    getFlowF nodes edges fuel₂ eid = some v := by
  intro fuel₁
  induction fuel₁ with
  | zero => intro fuel₂ _ eid v h; simp [getFlowF] at h
  | succ f ih =>
    intro fuel₂ hle eid v h
    obtain ⟨g, rfl⟩ : ∃ g, fuel₂ = g + 1 := ⟨fuel₂ - 1, by omega⟩
    have hfg : f ≤ g := by omega
    cases hfind : edges.find? (fun e => e.id == eid) with
    | none => simp [getFlowF, hfind] at h ⊢; exact h
    | some e =>
      cases htgt : nodes.find? (fun n => n.id == e.«to») with
      | none => simp [getFlowF, hfind, htgt] at h ⊢; exact h
      | some t =>
        simp only [getFlowF, hfind, htgt] at h ⊢
        cases hsum : sumFlowsWith (getFlowF nodes edges f)
            (edges.filter (fun e2 => e2.«from» == t.id)) with
        | none => rw [hsum] at h; simp at h
        | some s =>
          rw [hsum] at h
          rw [sumFlowsWith_mono (fun i w hw => ih hfg hw) hsum]
          exact h

/-- Core termination argument: on an acyclic edge set with distinct edge
ids, if every node id reachable from the found edge's downstream end lies
in `allowed`, then fuel `allowed.card + 1` suffices. Each recursive step
moves to a node strictly inside `allowed` minus the current target (a
return to the current target would close a cycle), so the reachable set
shrinks at every level. -/
lemma getFlowF_total_aux (nodes : List AppNode) (edges : List AppEdge)
    (hacy : Acyclic edges) (hnd : (edges.map (fun e => e.id)).Nodup) :
    ∀ (n : ℕ) (allowed : Finset String), allowed.card ≤ n →
    ∀ (eid : String),
    (∀ e, edges.find? (fun x => x.id == eid) = some e →
      ∀ m, Relation.ReflTransGen (stepR edges) e.«to» m → m ∈ allowed) →
    ∃ v, getFlowF nodes edges (allowed.card + 1) eid = some v := by
  intro n
  induction n with
  | zero =>
    intro allowed hcard eid hreach
    cases hfind : edges.find? (fun x => x.id == eid) with
    | none => exact ⟨0, by simp [getFlowF, hfind]⟩
    | some e =>
      cases htgt : nodes.find? (fun x => x.id == e.«to») with
      | none => exact ⟨0, by simp [getFlowF, hfind, htgt]⟩
      | some t =>
        exfalso
        have hmem : e.«to» ∈ allowed := hreach e hfind _ Relation.ReflTransGen.refl
        have : allowed.card ≠ 0 := Finset.card_ne_zero_of_mem hmem
        omega
  | succ n ih =>
    intro allowed hcard eid hreach
    cases hfind : edges.find? (fun x => x.id == eid) with
    | none => exact ⟨0, by simp [getFlowF, hfind]⟩
    | some e =>
      cases htgt : nodes.find? (fun x => x.id == e.«to») with
      | none => exact ⟨0, by simp [getFlowF, hfind, htgt]⟩
      | some t =>
        have htid : t.id = e.«to» := by simpa using List.find?_some htgt
        have htmem : t.id ∈ allowed := htid ▸ hreach e hfind _ Relation.ReflTransGen.refl
        have hcard1 : 1 ≤ allowed.card := Finset.card_pos.mpr ⟨t.id, htmem⟩
        have herase : (allowed.erase t.id).card = allowed.card - 1 :=
          Finset.card_erase_of_mem htmem
        have hchild : ∀ c ∈ edges.filter (fun e2 => e2.«from» == t.id),
            ∃ v, getFlowF nodes edges allowed.card c.id = some v := by
          intro c hc
          rw [List.mem_filter] at hc
          obtain ⟨hcmem, hcfrom⟩ := hc
          have hcfrom' : c.«from» = t.id := by simpa using hcfrom
          have hkey : (allowed.erase t.id).card + 1 = allowed.card := by omega
          rw [← hkey]
          apply ih (allowed.erase t.id) (by omega) c.id
          intro e' hfind' m hm
          have he'mem := List.mem_of_find?_eq_some hfind'
          have he'c : e' = c := by
            have he'id : e'.id = c.id := by simpa using List.find?_some hfind'
            exact List.inj_on_of_nodup_map hnd he'mem hcmem he'id
          have hfrom : e'.«from» = t.id := by rw [he'c]; exact hcfrom'
          have hstep : stepR edges t.id e'.«to» := ⟨e', he'mem, hfrom, rfl⟩
          have hmem : m ∈ allowed := by
            apply hreach e hfind
            rw [← htid]
            exact Relation.ReflTransGen.head hstep hm
          have hne : m ≠ t.id := by
            rintro rfl
            exact hacy t.id (Relation.TransGen.head' hstep hm)
          exact Finset.mem_erase.mpr ⟨hne, hmem⟩
        obtain ⟨s, hs⟩ := sumFlowsWith_exists hchild
        exact ⟨(if t.type = NodeType.APPLIANCE then t.btu else 0) + s,
          by simp [getFlowF, hfind, htgt, hs]⟩

/-- Stabilisation: on an acyclic edge set with distinct edge ids, every
edge's flow has a value at fuel `maxFuel edges` and the same value at any
larger fuel. -/
lemma getFlowF_total (nodes : List AppNode) (edges : List AppEdge)
    (hacy : Acyclic edges) (hnd : (edges.map (fun e => e.id)).Nodup) (eid : String) :
    ∃ v, getFlowF nodes edges (maxFuel edges) eid = some v ∧
      ∀ fuel, maxFuel edges ≤ fuel → getFlowF nodes edges fuel eid = some v := by
  set A := (edges.map (fun e => e.«to»)).toFinset with hA
  have hAcard : A.card ≤ edges.length := by
    calc A.card ≤ (edges.map (fun e => e.«to»)).length := List.toFinset_card_le _
    _ = edges.length := by simp
  have hreach : ∀ e, edges.find? (fun x => x.id == eid) = some e →
      ∀ m, Relation.ReflTransGen (stepR edges) e.«to» m → m ∈ A := by
    intro e hfind m hm
    induction hm with
    | refl =>
      have := List.mem_of_find?_eq_some hfind
      simp only [hA, List.mem_toFinset, List.mem_map]
      exact ⟨e, this, rfl⟩
    | tail _ hbc _ =>
      obtain ⟨e2, he2, _, hto⟩ := hbc
      simp only [hA, List.mem_toFinset, List.mem_map]
      exact ⟨e2, he2, hto⟩
  obtain ⟨v, hv⟩ := getFlowF_total_aux nodes edges hacy hnd A.card A le_rfl eid hreach
  have hv' : getFlowF nodes edges (maxFuel edges) eid = some v :=
    getFlowF_mono nodes edges (by simp only [maxFuel]; omega) hv
  exact ⟨v, hv', fun fuel hf => getFlowF_mono nodes edges hf hv'⟩

/-- Unfolding at the canonical fuel: on an acyclic, duplicate-free edge set
the stabilised flow of an edge with an existing target equals the gated
appliance demand plus the sum of the stabilised flows of the edges leaving
the target. -/
lemma getFlowF_max_eq (nodes : List AppNode) (edges : List AppEdge)
    (hacy : Acyclic edges) (hnd : (edges.map (fun e => e.id)).Nodup)
    {eid : String} {e : AppEdge} {t : AppNode}
    (hfind : edges.find? (fun x => x.id == eid) = some e)
    (htgt : nodes.find? (fun x => x.id == e.«to») = some t) :
    getFlowF nodes edges (maxFuel edges) eid =
      some ((if t.type = NodeType.APPLIANCE then t.btu else 0) +
        ((edges.filter (fun e2 => e2.«from» == t.id)).map
          (fun c => (getFlowF nodes edges (maxFuel edges) c.id).getD 0)).sum) := by
  obtain ⟨v, hv, _⟩ := getFlowF_total nodes edges hacy hnd eid
  have hv1 : getFlowF nodes edges (edges.length + 1) eid = some v := hv
  simp only [getFlowF, hfind, htgt] at hv1
  cases hsum : sumFlowsWith (getFlowF nodes edges edges.length)
      (edges.filter (fun e2 => e2.«from» == t.id)) with
  | none => rw [hsum] at hv1; simp at hv1
  | some s =>
    rw [hsum] at hv1
    simp only [Option.some.injEq] at hv1
    have hmap : ∀ c ∈ edges.filter (fun e2 => e2.«from» == t.id),
        (getFlowF nodes edges edges.length c.id).getD 0 =
        (getFlowF nodes edges (maxFuel edges) c.id).getD 0 := by
      intro c hc
      obtain ⟨w, hw⟩ := sumFlowsWith_child_some hsum c hc
      rw [hw, getFlowF_mono nodes edges (by simp [maxFuel]) hw]
    rw [hv, ← hv1, sumFlowsWith_eq_sum hsum, List.map_congr_left hmap]

/-- A dangling edge (no node carries the id in `to`) always aggregates to
flow 0, at any positive fuel. -/
lemma getFlowF_dangling (nodes : List AppNode) (edges : List AppEdge)
    {eid : String} {e : AppEdge}
    (hfind : edges.find? (fun x => x.id == eid) = some e)
    (htgt : nodes.find? (fun x => x.id == e.«to») = none) (fuel : ℕ) :
    getFlowF nodes edges (fuel + 1) eid = some 0 := by
  simp [getFlowF, hfind, htgt]

/-- Association-list lookup over a keyed map of a duplicate-free edge list
finds exactly the entry of the given edge. -/
lemma lookup_map_of_nodup {β : Type} (g : AppEdge → β) :
    ∀ {l : List AppEdge}, (l.map (fun e => e.id)).Nodup → ∀ {e : AppEdge}, e ∈ l →
    List.lookup e.id (l.map (fun x => (x.id, g x))) = some (g e) := by
  intro l
  induction l with
  | nil => simp
  | cons x l ih =>
    intro hnd e he
    simp only [List.map_cons, List.nodup_cons] at hnd
    obtain ⟨hx, hnd'⟩ := hnd
    rcases List.mem_cons.mp he with rfl | he'
    · simp [List.lookup]
    · have hne : (e.id == x.id) = false := by
        rw [beq_eq_false_iff_ne]
        intro h
        exact hx (h ▸ List.mem_map_of_mem (fun e => e.id) he')
      simp only [List.map_cons, List.lookup, hne]
      exact ih hnd' he'

/-- Association-list lookup over a keyed map misses every absent key. -/
lemma lookup_map_of_not_mem {β : Type} (g : AppEdge → β) :
    ∀ {l : List AppEdge} {key : String}, key ∉ l.map (fun e => e.id) →
    List.lookup key (l.map (fun x => (x.id, g x))) = none := by
  intro l
  induction l with
  | nil => simp
  | cons x l ih =>
    intro key hkey
    simp only [List.map_cons, List.mem_cons, not_or] at hkey
    obtain ⟨h1, h2⟩ := hkey
    have hne : (key == x.id) = false := by rw [beq_eq_false_iff_ne]; exact fun h => h1 h
    simp only [List.map_cons, List.lookup, hne]
    exact ih h2

/-- A strictly rank-increasing edge set is acyclic. -/
lemma acyclic_of_rank (edges : List AppEdge) (rank : String → ℕ)
    (h : ∀ e ∈ edges, rank e.«from» < rank e.«to») : Acyclic edges := by
  have hstep : ∀ a b, stepR edges a b → rank a < rank b := by
    rintro a b ⟨e, he, rfl, rfl⟩
    exact h e he
  have htrans : ∀ a b, Relation.TransGen (stepR edges) a b → rank a < rank b := by
    intro a b hab
    induction hab with
    | single h1 => exact hstep _ _ h1
    | tail _ h1 ih => exact lt_trans ih (hstep _ _ h1)
  exact fun n hn => lt_irrefl _ (htrans n n hn)

/-- Chain Meter → Junction → Appliance(40000) used by the spec's demand
summation test. -/
def chainNodes : List AppNode :=
  [⟨"m", NodeType.METER, 100, 100, "Gas Meter", 0⟩,
   ⟨"j", NodeType.JUNCTION, 200, 200, "T-Junction", 0⟩,
   ⟨"a", NodeType.APPLIANCE, 300, 300, "Water Heater", 40000⟩]

/-- Edges of the chain: e1 feeds the junction, e2 feeds the appliance. -/
def chainEdges : List AppEdge :=
  [⟨"e1", "m", "j", PipeSize.HALF, 10⟩, ⟨"e2", "j", "a", PipeSize.HALF, 10⟩]

/-- Ranking showing the chain is acyclic. -/
lemma chainEdges_acyclic : Acyclic chainEdges := by
  apply acyclic_of_rank chainEdges
    (fun s => if s = "m" then 0 else if s = "j" then 1 else 2)
  decide

/-- C1, amended. For the src/App.tsx / part_002 aggregator and under the
Graph Store invariants (acyclic edge set, distinct edge ids), the flow of
an edge whose `to` resolves to a node `t` equals `t.btu` when `t` is an
APPLIANCE (0 for any other node type) plus the sum of the flows of the
edges whose `from` is `t.id`; and an edge whose `to` resolves to no node
gets flow 0 instead of an error. (The claim as frozen also covers the
src/index.tsx aggregator, which omits the APPLIANCE type gate — see the
counterexample.) -/
theorem flow_eq_gated_demand_plus_children
    (nodes : List AppNode) (edges : List AppEdge)
    (hacy : Acyclic edges) (hnd : (edges.map (fun e => e.id)).Nodup)
    (eid : String) (e : AppEdge)
    (hfind : edges.find? (fun x => x.id == eid) = some e) :
    (∀ t, nodes.find? (fun x => x.id == e.«to») = some t →
      getFlowF nodes edges (maxFuel edges) eid =
        some ((if t.type = NodeType.APPLIANCE then t.btu else 0) +
          ((edges.filter (fun e2 => e2.«from» == t.id)).map
            (fun c => (getFlowF nodes edges (maxFuel edges) c.id).getD 0)).sum)) ∧
    (nodes.find? (fun x => x.id == e.«to») = none →
      getFlowF nodes edges (maxFuel edges) eid = some 0) :=
  ⟨fun _ htgt => getFlowF_max_eq nodes edges hacy hnd hfind htgt,
   fun htgt => getFlowF_dangling nodes edges hfind htgt edges.length⟩

/-- C1 witness: on the Meter → Junction → Appliance(40000) chain, the edge
feeding the junction satisfies the recursion equation, and its flow is
40000 as the spec's summation test demands. -/
theorem flow_eq_gated_demand_plus_children_witness :
    getFlowF chainNodes chainEdges (maxFuel chainEdges) "e1" =
      some ((if NodeType.JUNCTION = NodeType.APPLIANCE then (0 : ℤ) else 0) +
        ((chainEdges.filter (fun e2 => e2.«from» == "j")).map
          (fun c => (getFlowF chainNodes chainEdges (maxFuel chainEdges) c.id).getD 0)).sum) ∧
    getFlowF chainNodes chainEdges (maxFuel chainEdges) "e1" = some 40000 :=
  ⟨(flow_eq_gated_demand_plus_children chainNodes chainEdges chainEdges_acyclic
      (by decide) "e1" ⟨"e1", "m", "j", PipeSize.HALF, 10⟩ (by decide)).1
      ⟨"j", NodeType.JUNCTION, 200, 200, "T-Junction", 0⟩ (by decide),
   by decide⟩

/-- Graph used against C1 as frozen: a single edge whose destination is a
JUNCTION carrying btu 7 (such a node state is loadable through import). -/
def gateNodes : List AppNode := [⟨"j", NodeType.JUNCTION, 0, 0, "T-Junction", 7⟩]

/-- Single edge into the btu-carrying junction. -/
def gateEdges : List AppEdge := [⟨"e1", "x", "j", PipeSize.HALF, 10⟩]

/-- C1 counterexample: the src/index.tsx aggregator (cited by the claim)
returns flow 7 for the edge into a JUNCTION with btu 7, while the claim's
formula — btu only for APPLIANCE destinations, 0 for any other type, and
the junction has no outgoing edges — demands 0, as the src/App.tsx
aggregator indeed computes. -/
theorem flow_typeGate_missing_in_index_counterexample :
    getFlowIdxF gateNodes gateEdges (maxFuel gateEdges) "e1" = some 7 ∧
    getFlowF gateNodes gateEdges (maxFuel gateEdges) "e1" = some 0 ∧
    ((7 : ℤ) = 0) = False := by
  refine ⟨by decide, by decide, by decide⟩

/-- C5, amended. On an edge set that is acyclic and has distinct edge ids
(the Graph Store's identifier invariant), the recursive flow computation
terminates for every edge: it has a value at fuel `maxFuel edges` and the
same value at every larger fuel. (Acyclicity alone is not enough — see the
counterexample, where duplicate edge ids make the recursion diverge on an
acyclic edge set.) -/
theorem getFlow_terminates_on_acyclic
    (nodes : List AppNode) (edges : List AppEdge)
    (hacy : Acyclic edges) (hnd : (edges.map (fun e => e.id)).Nodup) (eid : String) :
    ∃ v, getFlowF nodes edges (maxFuel edges) eid = some v ∧
      ∀ fuel, maxFuel edges ≤ fuel → getFlowF nodes edges fuel eid = some v :=
  getFlowF_total nodes edges hacy hnd eid

/-- C5 witness: termination on the acyclic chain graph. -/
theorem getFlow_terminates_on_acyclic_witness :
    ∃ v, getFlowF chainNodes chainEdges (maxFuel chainEdges) "e1" = some v ∧
      ∀ fuel, maxFuel chainEdges ≤ fuel →
        getFlowF chainNodes chainEdges fuel "e1" = some v :=
  getFlow_terminates_on_acyclic chainNodes chainEdges chainEdges_acyclic (by decide) "e1"

/-- Nodes of the divergence example: two junctions N and M. -/
def dupNodes : List AppNode :=
  [⟨"N", NodeType.JUNCTION, 0, 0, "T-Junction", 0⟩,
   ⟨"M", NodeType.JUNCTION, 0, 0, "T-Junction", 0⟩]

/-- Edges of the divergence example: two distinct edges u → N and N → M
that share the id "A". No node is reachable from itself, yet `getFlow("A")`
resolves the id to the first edge, reaches N, finds the outgoing edge
N → M whose id is again "A", and recurses on "A" forever. -/
def dupEdges : List AppEdge :=
  [⟨"A", "u", "N", PipeSize.HALF, 10⟩, ⟨"A", "N", "M", PipeSize.HALF, 10⟩]

/-- The divergence example is acyclic. -/
lemma dupEdges_acyclic : Acyclic dupEdges := by
  apply acyclic_of_rank dupEdges
    (fun s => if s = "u" then 0 else if s = "N" then 1 else 2)
  decide

/-- C5 counterexample: an acyclic edge set (no node reachable from itself)
on which the recursive flow computation of edge id "A" never terminates —
the claim's acyclicity precondition alone does not make `getFlow` total;
the distinct-edge-id invariant is also needed. -/
theorem getFlow_diverges_on_acyclic_counterexample :
    Acyclic dupEdges ∧ getFlowDiverges dupNodes dupEdges "A" := by
  refine ⟨dupEdges_acyclic, ?_⟩
  intro fuel
  induction fuel with
  | zero => rfl
  | succ f ih =>
    show (match sumFlowsWith (getFlowF dupNodes dupEdges f)
        [({ id := "A", «from» := "N", «to» := "M", size := PipeSize.HALF,
            length := 10 } : AppEdge)] with
      | none => none
      | some s => some ((0 : ℤ) + s)) = none
    simp [sumFlowsWith, ih]

/-- C2, amended. For every pipe size with a `PIPE_SPECS` entry and every
positive length, the part_002 capacity model returns exactly the spec's
formula `floor(((pressureDrop / length) / coeff) ^ (1/exp)) * 1000` with
the project-level pressure-drop configuration value; the src/App.tsx
variant computes the same formula but with the pressure drop hard-coded to
0.5 inside the function, so it tracks no project configuration value (see
the counterexample). -/
theorem capacity_matches_spec_formula
    (pressureDrop : ℚ) (size : String) (length : ℚ) (hl : 0 < length) :
    calculateCapacity pressureDrop size length = specCapacity pressureDrop size length ∧
    calculateCapacityApp size length = calculateCapacity 0.5 size length := by
  constructor
  · cases hspec : PIPE_SPECS size with
    | none => simp [calculateCapacity, specCapacity, hspec]
    | some spec =>
      simp only [calculateCapacity, specCapacity, hspec]
      rw [if_neg (not_le.mpr hl)]
  · cases hspec : PIPE_SPECS size with
    | none => simp [calculateCapacityApp, calculateCapacity, hspec]
    | some spec => simp only [calculateCapacityApp, calculateCapacity, hspec]

/-- C2 witness: the half-inch size at length 10 satisfies the formula. -/
theorem capacity_matches_spec_formula_witness :
    (0 : ℚ) < 10 ∧
    calculateCapacity 0.5 PipeSize.HALF 10 = specCapacity 0.5 PipeSize.HALF 10 :=
  ⟨by norm_num,
   (capacity_matches_spec_formula 0.5 PipeSize.HALF 10 (by norm_num)).1⟩

/-- C2 counterexample: with the project design pressure drop set to the
positive value 2e-8, the spec formula for the half-inch size at length 10
yields 0 (the base of the power is below 1), but src/App.tsx's capacity
model returns at least 1000 — it uses its hard-coded constant 0.5, not the
shared configuration value the claim requires. -/
theorem pressureDrop_hardcoded_counterexample :
    calculateCapacityApp PipeSize.HALF 10 ≠ specCapacity (2 / 100000000) PipeSize.HALF 10 := by
  have hspec : PIPE_SPECS PipeSize.HALF =
      some ⟨PipeSize.HALF, 0.00000410606, 2.1590935, 77000⟩ := rfl
  have happ : calculateCapacityApp PipeSize.HALF 10 =
      ⌊((((0.5 : ℚ) / 10) / (0.00000410606 : ℚ) : ℚ) : ℝ) ^
        ((1 : ℝ) / ((2.1590935 : ℚ) : ℝ))⌋ * 1000 := by
    simp only [calculateCapacityApp, hspec]
    rw [if_neg (by norm_num)]
  have hsp : specCapacity (2 / 100000000) PipeSize.HALF 10 =
      ⌊(((((2 : ℚ) / 100000000) / 10) / (0.00000410606 : ℚ) : ℚ) : ℝ) ^
        ((1 : ℝ) / ((2.1590935 : ℚ) : ℝ))⌋ * 1000 := by
    simp only [specCapacity, hspec]
  rw [happ, hsp]
  have hexp : (0 : ℝ) < (1 : ℝ) / ((2.1590935 : ℚ) : ℝ) := by
    have h2 : (0 : ℝ) < ((2.1590935 : ℚ) : ℝ) := by
      exact_mod_cast (by norm_num : (0 : ℚ) < 2.1590935)
    positivity
  have hy0 : (0 : ℝ) ≤ (((((2 : ℚ) / 100000000) / 10) / (0.00000410606 : ℚ) : ℚ) : ℝ) := by
    exact_mod_cast (by norm_num : (0 : ℚ) ≤ ((2 : ℚ) / 100000000) / 10 / (0.00000410606 : ℚ))
  have hy1 : (((((2 : ℚ) / 100000000) / 10) / (0.00000410606 : ℚ) : ℚ) : ℝ) < 1 := by
    exact_mod_cast (by norm_num : ((2 : ℚ) / 100000000) / 10 / (0.00000410606 : ℚ) < 1)
  have hfl0 : ⌊(((((2 : ℚ) / 100000000) / 10) / (0.00000410606 : ℚ) : ℚ) : ℝ) ^
      ((1 : ℝ) / ((2.1590935 : ℚ) : ℝ))⌋ = 0 :=
    Int.floor_eq_zero_iff.mpr
      (Set.mem_Ico.mpr ⟨Real.rpow_nonneg hy0 _, Real.rpow_lt_one hy0 hy1 hexp⟩)
  have hx1 : (1 : ℝ) ≤ ((((0.5 : ℚ) / 10) / (0.00000410606 : ℚ) : ℚ) : ℝ) := by
    exact_mod_cast (by norm_num : (1 : ℚ) ≤ (0.5 : ℚ) / 10 / (0.00000410606 : ℚ))
  have hfl1 : (1 : ℤ) ≤ ⌊((((0.5 : ℚ) / 10) / (0.00000410606 : ℚ) : ℚ) : ℝ) ^
      ((1 : ℝ) / ((2.1590935 : ℚ) : ℝ))⌋ := by
    apply Int.le_floor.mpr
    exact_mod_cast Real.one_le_rpow hx1 hexp.le
  rw [hfl0]
  intro h
  omega

/-- C3, amended. For every edge of the current graph (with the unique-id
invariant) whose aggregated flow is available at the given fuel, the
src/App.tsx / part_002 validator's mapping holds exactly the verdict
combining that flow with `calculateCapacity(edge.size, edge.length)`, and
its `isValid` bit is the non-strict comparison `flow <= capacity` — in
particular flow equal to capacity is valid. The src/index.tsx validator
cited by the claim compares flow against the fixed per-size rating
`PIPE_SPECS[size].capacity` instead of the length-dependent capacity model
(see the counterexample). -/
theorem validator_isValid_iff_flow_le_capacity
    (fuel : ℕ) (nodes : List AppNode) (edges : List AppEdge) (pressureDrop : ℚ)
    (e : AppEdge) (fl : ℤ)
    (he : e ∈ edges) (hnd : (edges.map (fun x => x.id)).Nodup)
    (hfl : getFlowF nodes edges fuel e.id = some fl) :
    List.lookup e.id (validateSystem fuel nodes edges pressureDrop) =
      some (mkVerdict fl (calculateCapacity pressureDrop e.size e.length)) ∧
    ((mkVerdict fl (calculateCapacity pressureDrop e.size e.length)).isValid = true ↔
      fl ≤ calculateCapacity pressureDrop e.size e.length) := by
  constructor
  · have hlk := lookup_map_of_nodup
      (fun x => mkVerdict ((getFlowF nodes edges fuel x.id).getD 0)
        (calculateCapacity pressureDrop x.size x.length)) hnd he
    simpa [validateSystem, hfl] using hlk
  · simp [mkVerdict]

/-- Nodes of the simple validation example: meter feeding one 40000 BTU
appliance. -/
def vNodes : List AppNode :=
  [⟨"m", NodeType.METER, 100, 100, "Gas Meter", 0⟩,
   ⟨"a", NodeType.APPLIANCE, 200, 200, "Water Heater", 40000⟩]

/-- The single half-inch, 10 ft edge of the validation example. -/
def vEdge : AppEdge := ⟨"e1", "m", "a", PipeSize.HALF, 10⟩

/-- Edge list of the validation example. -/
def vEdges : List AppEdge := [vEdge]

/-- C3 witness: the validator's entry for the single edge of the simple
example is exactly the verdict for flow 40000 against the capacity model
at the edge's size and length. -/
theorem validator_isValid_iff_flow_le_capacity_witness :
    List.lookup "e1" (validateSystem 2 vNodes vEdges 0.5) =
      some (mkVerdict 40000 (calculateCapacity 0.5 PipeSize.HALF 10)) ∧
    ((mkVerdict 40000 (calculateCapacity 0.5 PipeSize.HALF 10)).isValid = true ↔
      (40000 : ℤ) ≤ calculateCapacity 0.5 PipeSize.HALF 10) :=
  validator_isValid_iff_flow_le_capacity 2 vNodes vEdges 0.5 vEdge 40000
    (by decide) (by decide) (by decide)

/-- Graph for the C3 counterexample: the 40000 BTU appliance hangs on a
10000 ft half-inch pipe. -/
def longEdges : List AppEdge := [⟨"e1", "m", "a", PipeSize.HALF, 10000⟩]

/-- C3 counterexample: on the 10000 ft half-inch edge carrying 40000 BTU,
the src/index.tsx validator reports `isValid = true` (40000 is below the
fixed 77000 rating it uses), while the claim's comparison against the
Capacity Model at the edge's size and length is false — the formula
capacity at 10000 ft is below 13000. -/
theorem validator_uses_fixed_rating_counterexample :
    List.lookup "e1" (validateIdx 2 vNodes longEdges) = some ⟨true, 40000⟩ ∧
    ¬ ((40000 : ℤ) ≤ calculateCapacity 0.5 PipeSize.HALF 10000) := by
  constructor
  · decide
  · intro hle
    have hspec : PIPE_SPECS PipeSize.HALF =
        some ⟨PipeSize.HALF, 0.00000410606, 2.1590935, 77000⟩ := rfl
    have hcap : calculateCapacity 0.5 PipeSize.HALF 10000 =
        ⌊((((0.5 : ℚ) / 10000) / (0.00000410606 : ℚ) : ℚ) : ℝ) ^
          ((1 : ℝ) / ((2.1590935 : ℚ) : ℝ))⌋ * 1000 := by
      simp only [calculateCapacity, hspec]
      rw [if_neg (by norm_num)]
    rw [hcap] at hle
    have hx1 : (1 : ℝ) ≤ ((((0.5 : ℚ) / 10000) / (0.00000410606 : ℚ) : ℚ) : ℝ) := by
      exact_mod_cast (by norm_num : (1 : ℚ) ≤ (0.5 : ℚ) / 10000 / (0.00000410606 : ℚ))
    have hx13 : ((((0.5 : ℚ) / 10000) / (0.00000410606 : ℚ) : ℚ) : ℝ) < 13 := by
      exact_mod_cast (by norm_num : (0.5 : ℚ) / 10000 / (0.00000410606 : ℚ) < 13)
    have hexp1 : ((1 : ℝ) / ((2.1590935 : ℚ) : ℝ)) ≤ 1 := by
      rw [div_le_one (by exact_mod_cast (by norm_num : (0 : ℚ) < 2.1590935))]
      exact_mod_cast (by norm_num : (1 : ℚ) ≤ 2.1590935)
    have hb : ((((0.5 : ℚ) / 10000) / (0.00000410606 : ℚ) : ℚ) : ℝ) ^
        ((1 : ℝ) / ((2.1590935 : ℚ) : ℝ)) < 13 := by
      calc ((((0.5 : ℚ) / 10000) / (0.00000410606 : ℚ) : ℚ) : ℝ) ^
          ((1 : ℝ) / ((2.1590935 : ℚ) : ℝ)) ≤
          ((((0.5 : ℚ) / 10000) / (0.00000410606 : ℚ) : ℚ) : ℝ) ^ (1 : ℝ) :=
            Real.rpow_le_rpow_of_exponent_le hx1 hexp1
      _ = ((((0.5 : ℚ) / 10000) / (0.00000410606 : ℚ) : ℚ) : ℝ) := Real.rpow_one _
      _ < 13 := hx13
    have hfl : ⌊((((0.5 : ℚ) / 10000) / (0.00000410606 : ℚ) : ℚ) : ℝ) ^
        ((1 : ℝ) / ((2.1590935 : ℚ) : ℝ))⌋ < 13 :=
      Int.floor_lt.mpr (by exact_mod_cast hb)
    omega

/-- C4, confirmed. Deleting a node keeps exactly the nodes with a different
id and exactly the edges touching the deleted id at neither end (all other
nodes and edges unchanged, as list members), and after revalidation on the
new graph a deleted edge (one whose `from` or `to` was the deleted id) has
no entry in the validation mapping. Edge ids are assumed unique (Graph
Store invariant). -/
theorem deleteNode_cascades_and_clears_validation
    (nodes : List AppNode) (edges : List AppEdge) (nid : String)
    (hnd : (edges.map (fun e => e.id)).Nodup) :
    (∀ n : AppNode, n ∈ (deleteNode nodes edges nid).1 ↔ n ∈ nodes ∧ n.id ≠ nid) ∧
    (∀ e : AppEdge, e ∈ (deleteNode nodes edges nid).2 ↔
      e ∈ edges ∧ e.«from» ≠ nid ∧ e.«to» ≠ nid) ∧
    (∀ (fuel : ℕ) (pressureDrop : ℚ) (e : AppEdge), e ∈ edges →
      (e.«from» = nid ∨ e.«to» = nid) →
      List.lookup e.id (validateSystem fuel (deleteNode nodes edges nid).1
        (deleteNode nodes edges nid).2 pressureDrop) = none) := by
  refine ⟨fun n => ?_, fun e => ?_, fun fuel pressureDrop e he htouch => ?_⟩
  · simp [deleteNode, List.mem_filter]
  · simp [deleteNode, List.mem_filter]
  · apply lookup_map_of_not_mem
    intro hmem
    rw [List.mem_map] at hmem
    obtain ⟨e', he', hid⟩ := hmem
    rw [deleteNode, List.mem_filter] at he'
    obtain ⟨he'mem, hkeep⟩ := he'
    have : e' = e := List.inj_on_of_nodup_map hnd he'mem he hid
    subst this
    simp only [Bool.and_eq_true, bne_iff_ne] at hkeep
    rcases htouch with h | h
    · exact hkeep.1 h
    · exact hkeep.2 h

/-- C4 witness: deleting the junction of the chain graph removes both its
edges, keeps the meter and the appliance, and leaves no validation entry
for the removed edge e1. -/
theorem deleteNode_cascades_and_clears_validation_witness :
    ((⟨"m", NodeType.METER, 100, 100, "Gas Meter", 0⟩ : AppNode) ∈
        (deleteNode chainNodes chainEdges "j").1 ↔
      (⟨"m", NodeType.METER, 100, 100, "Gas Meter", 0⟩ : AppNode) ∈ chainNodes ∧
        ("m" : String) ≠ "j") ∧
    ((⟨"e1", "m", "j", PipeSize.HALF, 10⟩ : AppEdge) ∈
        (deleteNode chainNodes chainEdges "j").2 ↔
      (⟨"e1", "m", "j", PipeSize.HALF, 10⟩ : AppEdge) ∈ chainEdges ∧
        ("m" : String) ≠ "j" ∧ ("j" : String) ≠ "j") ∧
    List.lookup "e1" (validateSystem 3 (deleteNode chainNodes chainEdges "j").1
      (deleteNode chainNodes chainEdges "j").2 0.5) = none := by
  have h := deleteNode_cascades_and_clears_validation chainNodes chainEdges "j" (by decide)
  exact ⟨h.1 _, h.2.1 _, h.2.2 3 0.5 ⟨"e1", "m", "j", PipeSize.HALF, 10⟩
    (by decide) (Or.inr rfl)⟩

/-- C6, confirmed. In PIPE mode (part_001 lines 131-163 with onAddEdge of
src/App.tsx line 202): a first tap on node A locks it; a second tap on a
different node B emits exactly one add-edge intent from A to B, which
appends exactly one edge with the selected default pipe size and the
default length 10, and clears the lock; tapping the locked source again
with no significant movement clears the lock with no intent; a background
tap clears any locked source and performs no graph mutation. -/
theorem pipe_two_tap_protocol
    (nodes : List AppNode) (edges : List AppEdge) (A B : String)
    (selectedPipeSize newId : String) (mv1 mv2 : Bool)
    (hA : nodes.any (fun n => n.id == A) = true)
    (hB : nodes.any (fun n => n.id == B) = true)
    (hAB : A ≠ B) :
    handlePipeEnd nodes none A mv1 = (some A, none) ∧
    handlePipeEnd nodes (some A) B mv2 = (none, some (A, B)) ∧
    addEdge edges selectedPipeSize newId A B =
      edges ++ [⟨newId, A, B, selectedPipeSize, 10⟩] ∧
    (addEdge edges selectedPipeSize newId A B).length = edges.length + 1 ∧
    handlePipeEnd nodes (some A) A false = (none, none) ∧
    (∀ (selIsSelect : Bool) (sel : Option String),
      handleBackgroundDown selIsSelect sel =
        ((if selIsSelect then none else sel), none)) := by
  have hABbeq : (A == B) = false := beq_eq_false_iff_ne.mpr hAB
  refine ⟨?_, ?_, rfl, by simp [addEdge], ?_, fun _ _ => rfl⟩
  · simp [handlePipeEnd, hA]
  · simp [handlePipeEnd, hB, hABbeq, bne]
  · simp [handlePipeEnd, hA]

/-- C6 witness: on the chain graph, tapping the meter then the junction
creates exactly the edge m → j with the selected size and length 10. -/
theorem pipe_two_tap_protocol_witness :
    handlePipeEnd chainNodes none "m" false = (some "m", none) ∧
    handlePipeEnd chainNodes (some "m") "j" false = (none, some ("m", "j")) ∧
    addEdge ([] : List AppEdge) PipeSize.HALF "n1" "m" "j" =
      ([] : List AppEdge) ++ [⟨"n1", "m", "j", PipeSize.HALF, 10⟩] ∧
    (addEdge ([] : List AppEdge) PipeSize.HALF "n1" "m" "j").length =
      ([] : List AppEdge).length + 1 ∧
    handlePipeEnd chainNodes (some "m") "m" false = (none, none) ∧
    (∀ (selIsSelect : Bool) (sel : Option String),
      handleBackgroundDown selIsSelect sel =
        ((if selIsSelect then none else sel), none)) :=
  pipe_two_tap_protocol chainNodes [] "m" "j" PipeSize.HALF "n1" false false
    (by decide) (by decide) (by decide)

/-- C7, confirmed. For every size and pressure drop, a length that is zero
or negative makes both capacity-model variants return 0 (no failure). -/
theorem capacity_zero_on_nonpositive_length
    (pressureDrop : ℚ) (size : String) (length : ℚ) (hl : length ≤ 0) :
    calculateCapacity pressureDrop size length = 0 ∧
    calculateCapacityApp size length = 0 := by
  cases hspec : PIPE_SPECS size with
  | none => simp [calculateCapacity, calculateCapacityApp, hspec]
  | some spec => simp [calculateCapacity, calculateCapacityApp, hspec, hl]

/-- C7 witness: zero length on the half-inch size. -/
theorem capacity_zero_on_nonpositive_length_witness :
    calculateCapacity 0.5 PipeSize.HALF 0 = 0 ∧
    calculateCapacityApp PipeSize.HALF 0 = 0 :=
  capacity_zero_on_nonpositive_length 0.5 PipeSize.HALF 0 (by norm_num)

/-- Every `PIPE_SPECS` entry has a positive coefficient and an exponent of
at least one. -/
lemma pipeSpec_constants (size : String) (spec : PipeSpec)
    (h : PIPE_SPECS size = some spec) : 0 < spec.coeff ∧ 1 ≤ spec.exp := by
  simp only [PIPE_SPECS] at h
  split_ifs at h <;> simp only [Option.some.injEq] at h <;> subst h <;>
    exact ⟨by norm_num, by norm_num⟩

/-- C8, confirmed. For a fixed size and a fixed nonnegative design pressure
drop, capacity is non-increasing in length: a longer pipe never carries
more. -/
theorem capacity_antitone_in_length
    (pressureDrop : ℚ) (size : String) (L1 L2 : ℚ)
    (hp : 0 ≤ pressureDrop) (h1 : 0 < L1) (h12 : L1 ≤ L2) :
    calculateCapacity pressureDrop size L2 ≤ calculateCapacity pressureDrop size L1 := by
  cases hspec : PIPE_SPECS size with
  | none => simp [calculateCapacity, hspec]
  | some spec =>
    obtain ⟨hc, he⟩ := pipeSpec_constants size spec hspec
    have h2 : 0 < L2 := lt_of_lt_of_le h1 h12
    simp only [calculateCapacity, hspec]
    rw [if_neg (not_le.mpr h1), if_neg (not_le.mpr h2)]
    have hbase : (pressureDrop / L2) / spec.coeff ≤ (pressureDrop / L1) / spec.coeff :=
      (div_le_div_iff_of_pos_right hc).mpr (div_le_div_of_nonneg_left hp h1 h12)
    have hbase0 : (0 : ℚ) ≤ (pressureDrop / L2) / spec.coeff :=
      div_nonneg (div_nonneg hp h2.le) hc.le
    have hexp0 : (0 : ℝ) ≤ 1 / (spec.exp : ℝ) := by
      have : (0 : ℝ) < (spec.exp : ℝ) := by exact_mod_cast lt_of_lt_of_le one_pos he
      positivity
    have hpow : (((pressureDrop / L2) / spec.coeff : ℚ) : ℝ) ^ ((1 : ℝ) / (spec.exp : ℝ)) ≤
        (((pressureDrop / L1) / spec.coeff : ℚ) : ℝ) ^ ((1 : ℝ) / (spec.exp : ℝ)) :=
      Real.rpow_le_rpow (by exact_mod_cast hbase0) (by exact_mod_cast hbase) hexp0
    exact mul_le_mul_of_nonneg_right (Int.floor_le_floor hpow) (by norm_num)

/-- C8 witness: doubling the length of a half-inch pipe does not increase
its capacity. -/
theorem capacity_antitone_in_length_witness :
    calculateCapacity 0.5 PipeSize.HALF 20 ≤ calculateCapacity 0.5 PipeSize.HALF 10 :=
  capacity_antitone_in_length 0.5 PipeSize.HALF 10 20
    (by norm_num) (by norm_num) (by norm_num)

/-- C9, amended. When the external text-generation call fails, every audit
variant returns a fixed hard-coded string and never propagates the failure
to the caller; the part_000 / src/index.tsx fallback is a two-section
report, while the src/services/geminiService.ts fallback cited by the
claim is a single-sentence message with one section, not two (see the
counterexample). -/
theorem audit_failure_returns_fixed_fallback (err : String) :
    auditSystemAlt (Except.error err) = auditFallback ∧
    sectionCount auditFallback = 2 ∧
    auditSystemSvc (Except.error err) = geminiFallback ∧
    sectionCount geminiFallback = 1 := by
  refine ⟨rfl, ?_, rfl, ?_⟩
  · set_option maxRecDepth 4000 in decide
  · set_option maxRecDepth 4000 in decide

/-- C9 counterexample: the geminiService.ts audit, on failure, returns its
fixed one-sentence message — a single section, not the two sections the
claim requires. -/
theorem audit_fallback_single_section_counterexample :
    auditSystemSvc (Except.error "network unreachable") = geminiFallback ∧
    sectionCount geminiFallback = 1 ∧ (1 : ℕ) ≠ 2 := by
  refine ⟨rfl, ?_, by decide⟩
  set_option maxRecDepth 4000 in decide

/-- C10, confirmed. Both capacity-model variants are total: a size with no
`PIPE_SPECS` entry yields 0 for any length and pressure drop, never an
error or an undefined value. -/
theorem capacity_zero_on_unknown_size
    (pressureDrop : ℚ) (size : String) (length : ℚ)
    (hspec : PIPE_SPECS size = none) :
    calculateCapacity pressureDrop size length = 0 ∧
    calculateCapacityApp size length = 0 := by
  simp [calculateCapacity, calculateCapacityApp, hspec]

/-- C10 witness: the two-inch size is not in the table and yields 0 at a
positive length. -/
theorem capacity_zero_on_unknown_size_witness :
    calculateCapacity 0.5 "2\"" 10 = 0 ∧ calculateCapacityApp "2\"" 10 = 0 :=
  capacity_zero_on_unknown_size 0.5 "2\"" 10 (by decide)
